import Mathlib

/-!
# A shallow embedding of the 6502 emulator core (`src/main.cpp`)

Machine integers are natural numbers; every place where the C++ code narrows
an `int` result to `u8`, `u16` or `u32` is an explicit reduction modulo
`2^8`, `2^16` or `2^32`.  Memory is the buffer `data`, a function from the
indices below `MAX_MEM` to bytes: a raw index `data[i]` with `i >= MAX_MEM`
has no meaning in C++ and is modelled by the absence of a result.  Console
output (`printf`) is not modelled.
-/

namespace Emu6502

/-! ## Machine integers -/

/-- Conversion of an `int` to `u8`. -/
def wrap8 (i : Int) : Nat := (i % 256).toNat

/-- Conversion of an `int` to `u16`. -/
def wrap16 (i : Int) : Nat := (i % 65536).toNat

/-- Conversion of an `int` to `u32`. -/
def wrap32 (i : Int) : Nat := (i % 4294967296).toNat

/-! ## Mem -/

/-- `Mem::MAX_MEM`. -/
def MAX_MEM : Nat := 1024 * 64

/-- `struct Mem`: the buffer `u8 data[MAX_MEM]`. -/
structure Mem where
  data : Fin MAX_MEM → Nat

/-- Every cell of the buffer holds a `u8`. -/
def Mem.WF (m : Mem) : Prop := ∀ a : Fin MAX_MEM, m.data a < 256

/-- The assignment `data[i] = v` to the cell of index `i`. -/
def Mem.store (m : Mem) (i v : Nat) : Mem :=
  { data := fun a => if a.val = i then v else m.data a }

/-- The first `n` rounds of the loop of `Mem::Initialise`:
`for (i = 0; i < n; i++) data[i] = 0`. -/
def Mem.InitialiseLoop : Nat → Mem → Mem
  | 0, m => m
  | n + 1, m => (Mem.InitialiseLoop n m).store n 0

/-- `Mem::Initialise`. -/
def Mem.Initialise (m : Mem) : Mem := Mem.InitialiseLoop MAX_MEM m

/-- `Mem::operator[]` used for reading (both overloads have the same guard):
an address outside the buffer yields `data[0]`. -/
def Mem.read (m : Mem) (address : Nat) : Nat :=
  if h : address ≥ MAX_MEM then m.data ⟨0, by decide⟩ else m.data ⟨address, Nat.lt_of_not_ge h⟩

/-- `Mem::operator[]` used as the target of an assignment, `mem[address] = value`:
an address outside the buffer redirects the store to `data[0]`. -/
def Mem.write (m : Mem) (address value : Nat) : Mem :=
  if address ≥ MAX_MEM then m.store 0 value else m.store address value

/-- A raw read `data[i]`, defined only inside the buffer. -/
def Mem.rawGet (m : Mem) (i : Nat) : Option Nat :=
  if h : i < MAX_MEM then some (m.data ⟨i, h⟩) else none

/-- A raw write `data[i] = v`, defined only inside the buffer. -/
def Mem.rawSet (m : Mem) (i v : Nat) : Option Mem :=
  if i < MAX_MEM then some (m.store i v) else none

/-- `Mem::WriteU16(cycles, val, address)`: returns the memory and the cycle counter. -/
def Mem.WriteU16 (m : Mem) (cycles val address : Nat) : Option (Mem × Nat) :=
  match m.rawSet address (val &&& 0xFF) with
  | none => none
  | some m1 =>
    let cycles1 := wrap32 ((cycles : Int) - 1)
    match m1.rawSet (wrap32 ((address : Int) + 1)) ((val >>> 8) % 256) with
    | none => none
    | some m2 => some (m2, wrap32 ((cycles1 : Int) - 1))

/-- `Mem::ReadU16(cycles, val, address)`: returns `val` and the cycle counter. -/
def Mem.ReadU16 (m : Mem) (cycles address : Nat) : Option (Nat × Nat) :=
  match m.rawGet (wrap32 ((address : Int) - 1)) with
  | none => none
  | some hi =>
    match m.rawGet (wrap32 ((address : Int) - 2)) with
    | none => none
    | some lo => some (((hi <<< 8) ||| lo) % 65536, wrap32 ((cycles : Int) - 2))

/-! ## CPU -/

/-- `struct CPU`: program counter, stack pointer, registers and the seven one-bit flags. -/
structure CPU where
  PC : Nat
  SP : Nat
  A : Nat
  X : Nat
  Y : Nat
  C : Nat
  Z : Nat
  I : Nat
  D : Nat
  B : Nat
  V : Nat
  N : Nat
  deriving DecidableEq, Repr

/-- The fields of a `CPU` are in the range of their C++ types. -/
def CPU.WF (c : CPU) : Prop :=
  c.PC < 65536 ∧ c.SP < 65536 ∧ c.A < 256 ∧ c.X < 256 ∧ c.Y < 256 ∧
  c.C < 2 ∧ c.Z < 2 ∧ c.I < 2 ∧ c.D < 2 ∧ c.B < 2 ∧ c.V < 2 ∧ c.N < 2

def INS_LDA_IM : Nat := 0xA9
def INS_LDA_ZP : Nat := 0xA5
def INS_LDA_ZPX : Nat := 0xB5
def INS_JSR : Nat := 0x20
def INS_RTS : Nat := 0x60
def INS_CMP_IM : Nat := 0xC9
def INS_CPX_IM : Nat := 0xE0
def INS_CPY_IM : Nat := 0xC0
def INS_NOP : Nat := 0xEA
def INS_CLC : Nat := 0x18
def INS_CLD : Nat := 0xD8
def INS_CLI : Nat := 0x58
def INS_CLV : Nat := 0xB8
def INS_BCC : Nat := 0x90
def INS_BCS : Nat := 0xB0
def INS_BEQ : Nat := 0xF0

/-- The value of a C++ comparison stored into a one-bit flag. -/
def flag (p : Prop) [Decidable p] : Nat := if p then 1 else 0

/-- `CPU::LDASetStatus`. -/
def CPU.LDASetStatus (c : CPU) : CPU :=
  { c with Z := flag (c.A = 0), N := flag ((c.A &&& 0b10000000) > 0) }

/-- `CPU::Reset`. -/
def CPU.Reset (_c : CPU) (memory : Mem) : CPU × Mem :=
  ({ PC := 0xFFFC, SP := 0x0100, C := 0, Z := 0, I := 0, D := 0, B := 0, V := 0, N := 0,
     A := 0, X := 0, Y := 0 }, memory.Initialise)

/-- `CPU::FetchU8`: returns the byte, the processor and the cycle counter. -/
def CPU.FetchU8 (c : CPU) (cycles : Nat) (memory : Mem) : Nat × CPU × Nat :=
  (memory.read c.PC, { c with PC := (c.PC + 1) % 65536 }, wrap32 ((cycles : Int) - 1))

/-- `CPU::FetchU16` (little-endian host: `SYSTEM_BIG_ENDIAN` is not defined). -/
def CPU.FetchU16 (c : CPU) (cycles : Nat) (memory : Mem) : Nat × CPU × Nat :=
  let data := memory.read c.PC
  let c1 := { c with PC := (c.PC + 1) % 65536 }
  let cycles1 := wrap32 ((cycles : Int) - 1)
  let data := (data ||| (memory.read c1.PC <<< 8)) % 65536
  let c2 := { c1 with PC := (c1.PC + 1) % 65536 }
  let cycles2 := wrap32 ((cycles1 : Int) - 1)
  (data, c2, cycles2)

/-- `CPU::ReadU8`: returns the byte and the cycle counter. -/
def CPU.ReadU8 (cycles address : Nat) (memory : Mem) : Nat × Nat :=
  (memory.read address, wrap32 ((cycles : Int) - 1))

/-- What one round of the loop of `CPU::Execute` does. -/
inductive Step where
  /-- The `switch` was left by `break`: the loop goes on. -/
  | next (c : CPU) (memory : Mem) (cycles : Nat)
  /-- The `default` case: `Execute` returns. -/
  | unknown (c : CPU) (memory : Mem) (cycles : Nat)
  /-- A raw index outside the buffer: no defined behaviour. -/
  | undefined

/-- The body of the `while` loop of `CPU::Execute`: fetch one opcode and run its case. -/
def CPU.ExecuteStep (c0 : CPU) (cycles0 : Nat) (memory : Mem) : Step :=
  let (instruction, c, cycles) := c0.FetchU8 cycles0 memory
  if instruction = INS_LDA_IM then
    let (val, c, cycles) := c.FetchU8 cycles memory
    .next ({ c with A := val }).LDASetStatus memory cycles
  else if instruction = INS_LDA_ZP then
    let (zeropageaddress, c, cycles) := c.FetchU8 cycles memory
    let (val, cycles) := CPU.ReadU8 cycles zeropageaddress memory
    .next ({ c with A := val }).LDASetStatus memory cycles
  else if instruction = INS_LDA_ZPX then
    let (zeropageaddress, c, cycles) := c.FetchU8 cycles memory
    let zeropageaddress := (zeropageaddress + c.X) % 256
    let cycles := wrap32 ((cycles : Int) - 1)
    let (val, cycles) := CPU.ReadU8 cycles zeropageaddress memory
    .next ({ c with A := val }).LDASetStatus memory cycles
  else if instruction = INS_JSR then
    let (subaddr, c, cycles) := c.FetchU16 cycles memory
    match memory.WriteU16 cycles (wrap16 ((c.PC : Int) - 1)) c.SP with
    | none => .undefined
    | some (memory, cycles) =>
      .next { c with SP := (c.SP + 2) % 65536, PC := subaddr } memory (wrap32 ((cycles : Int) - 1))
  else if instruction = INS_CMP_IM then
    let (val, c, cycles) := c.FetchU8 cycles memory
    let res := wrap8 ((c.A : Int) - val)
    .next { c with Z := flag (res = 0), C := flag (val ≤ c.A),
                   N := flag ((res &&& 0b10000000) > 0) } memory cycles
  else if instruction = INS_CPX_IM then
    let (val, c, cycles) := c.FetchU8 cycles memory
    let res := wrap8 ((c.X : Int) - val)
    .next { c with Z := flag (res = 0), C := flag (val ≥ c.X),
                   N := flag ((res &&& 0b10000000) > 0) } memory cycles
  else if instruction = INS_CPY_IM then
    let (val, c, cycles) := c.FetchU8 cycles memory
    let res := wrap8 ((c.X : Int) - val)
    .next { c with Z := flag (res = 0), C := flag (val ≥ c.X),
                   N := flag ((res &&& 0b10000000) > 0) } memory cycles
  else if instruction = INS_RTS then
    match memory.ReadU16 cycles c.SP with
    | none => .undefined
    | some (top, cycles) =>
      let c := { c with SP := wrap16 ((c.SP : Int) - 2) }
      let c := { c with PC := top }
      let cycles := wrap32 ((cycles : Int) - 2)
      let c := { c with PC := (c.PC + 1) % 65536 }
      .next c memory (wrap32 ((cycles : Int) - 1))
  else if instruction = INS_NOP then
    .next c memory (wrap32 ((cycles : Int) - 1))
  else if instruction = INS_CLC then
    .next { c with C := 0 } memory (wrap32 ((cycles : Int) - 1))
  else if instruction = INS_CLD then
    .next { c with D := 0 } memory (wrap32 ((cycles : Int) - 1))
  else if instruction = INS_CLI then
    .next { c with I := 0 } memory (wrap32 ((cycles : Int) - 1))
  else if instruction = INS_CLV then
    .next { c with V := 0 } memory (wrap32 ((cycles : Int) - 1))
  else if instruction = INS_BCC then
    if c.C = 0 then
      let (subaddr, c, cycles) := c.FetchU16 cycles memory
      .next { c with PC := subaddr } memory (wrap32 ((cycles : Int) - 1))
    else .next c memory cycles
  else if instruction = INS_BCS then
    if c.C = 1 then
      let (subaddr, c, cycles) := c.FetchU16 cycles memory
      .next { c with PC := subaddr } memory (wrap32 ((cycles : Int) - 1))
    else .next c memory cycles
  else if instruction = INS_BEQ then
    if c.Z = 1 then
      let (subaddr, c, cycles) := c.FetchU16 cycles memory
      .next { c with PC := subaddr } memory (wrap32 ((cycles : Int) - 1))
    else .next c memory cycles
  else
    .unknown c memory cycles

/-- How a call of `CPU::Execute` ends. -/
inductive Outcome where
  /-- `Execute` returned `ret`; `fault` tells whether it returned from the `default`
  case (unknown opcode) rather than from the end of the loop. -/
  | returned (ret : Nat) (fault : Bool) (c : CPU) (memory : Mem)
  /-- A raw index outside the buffer was used. -/
  | undefined
  /-- The loop was still running after the given number of rounds. -/
  | running

/-- The `while (cycles > 0)` loop of `CPU::Execute`, run for at most `fuel` rounds. -/
def CPU.ExecuteLoop (begcycles : Nat) : Nat → CPU → Nat → Mem → Outcome
  | 0, c, cycles, memory =>
    if cycles > 0 then .running
    else .returned (wrap32 ((begcycles : Int) - cycles)) false c memory
  | fuel + 1, c, cycles, memory =>
    if cycles > 0 then
      match c.ExecuteStep cycles memory with
      | .next c1 memory1 cycles1 => CPU.ExecuteLoop begcycles fuel c1 cycles1 memory1
      | .unknown c1 memory1 cycles1 =>
        .returned (wrap32 ((begcycles : Int) - cycles1)) true c1 memory1
      | .undefined => .undefined
    else .returned (wrap32 ((begcycles : Int) - cycles)) false c memory

/-- `CPU::Execute(cycles, memory)`, with a bound on the number of loop rounds. -/
def CPU.Execute (fuel : Nat) (c : CPU) (cycles : Nat) (memory : Mem) : Outcome :=
  CPU.ExecuteLoop cycles fuel c cycles memory

/-- The value returned by `Execute`, when it returned. -/
def Outcome.retOf : Outcome → Option Nat
  | .returned r _ _ _ => some r
  | _ => none

/-- The processor state `Execute` returned with. -/
def Outcome.cpuOf : Outcome → Option CPU
  | .returned _ _ c _ => some c
  | _ => none

/-- Whether `Execute` returned from the `default` case. -/
def Outcome.faultOf : Outcome → Option Bool
  | .returned _ f _ _ => some f
  | _ => none

/-- The memory `Execute` returned with. -/
def Outcome.memOf : Outcome → Option Mem
  | .returned _ _ _ m => some m
  | _ => none

/-- The program that `main` writes after `Reset`. -/
def mainProgram (mem : Mem) : Mem :=
  (((((((mem.write 0xFFFC INS_JSR).write 0xFFFD 0x42).write 0xFFFE 0x00).write 0x0042 INS_LDA_IM).write
    0x0043 0x69).write 0x0044 INS_NOP).write 0x0045 INS_CMP_IM).write 0x0046 0x70 |>.write 0x0047 INS_RTS

/-- The processor after one round of the loop. -/
def Step.cpuOf : Step → Option CPU
  | .next c _ _ => some c
  | .unknown c _ _ => some c
  | .undefined => none

/-- The cycle counter after one round of the loop. -/
def Step.cyclesOf : Step → Option Nat
  | .next _ _ n => some n
  | .unknown _ _ n => some n
  | .undefined => none

/-- The memory after one round of the loop. -/
def Step.memOf : Step → Option Mem
  | .next _ m _ => some m
  | .unknown _ m _ => some m
  | .undefined => none

/-- Two rounds of the loop in a row (the loop guard is not looked at). -/
def CPU.ExecuteTwoSteps (c : CPU) (cycles : Nat) (memory : Mem) : Step :=
  match c.ExecuteStep cycles memory with
  | .next c1 memory1 cycles1 => c1.ExecuteStep cycles1 memory1
  | s => s

/-- The case labels of the `switch` in `CPU::Execute`. -/
def supportedOpcodes : List Nat :=
  [INS_LDA_IM, INS_LDA_ZP, INS_LDA_ZPX, INS_JSR, INS_CMP_IM, INS_CPX_IM, INS_CPY_IM, INS_RTS,
   INS_NOP, INS_CLC, INS_CLD, INS_CLI, INS_CLV, INS_BCC, INS_BCS, INS_BEQ]

/-- The word that `FetchU16` assembles from the two bytes after the opcode at `pc`. -/
def operandWord (memory : Mem) (pc : Nat) : Nat :=
  (memory.read ((pc + 1) % 65536) ||| (memory.read (((pc + 1) % 65536 + 1) % 65536) <<< 8)) % 65536

/-- The return address that `JSR` at `pc` pushes: the program counter after the
operand fetch, minus one. -/
def pushedWord (pc : Nat) : Nat :=
  wrap16 (((((pc + 1) % 65536 + 1) % 65536 + 1) % 65536 : Nat) - 1)

/-! ## Concrete inputs -/

/-- A memory whose cells are all zero. -/
def zeroMem : Mem := ⟨fun _ => 0⟩

/-- A memory whose cells all hold the opcode of `NOP`. -/
def nopMem : Mem := ⟨fun _ => INS_NOP⟩

/-- The processor as `Reset` leaves it. -/
def resetCpu : CPU :=
  { PC := 0xFFFC, SP := 0x0100, A := 0, X := 0, Y := 0,
    C := 0, Z := 0, I := 0, D := 0, B := 0, V := 0, N := 0 }

/-- `LDA #$80` at the reset vector. -/
def ldaImMem : Mem := (zeroMem.write 0xFFFC INS_LDA_IM).write 0xFFFD 0x80

/-- `CMP #$70` at the reset vector. -/
def cmpMem : Mem := (zeroMem.write 0xFFFC INS_CMP_IM).write 0xFFFD 0x70

/-- `JSR $0042` at the reset vector and `RTS` at `0x0042`. -/
def jsrRtsMem : Mem :=
  (((zeroMem.write 0xFFFC INS_JSR).write 0xFFFD 0x42).write 0xFFFE 0x00).write 0x0042 INS_RTS

/-- Four `NOP`s at `0xFFFC..0xFFFF`, zero elsewhere. -/
def fourNopMem : Mem :=
  (((zeroMem.write 0xFFFC INS_NOP).write 0xFFFD INS_NOP).write 0xFFFE INS_NOP).write 0xFFFF INS_NOP

/-- `CPX #$03` at the reset vector. -/
def cpxMem : Mem := (zeroMem.write 0xFFFC INS_CPX_IM).write 0xFFFD 0x03

/-- `CPY #$05` at the reset vector. -/
def cpyMem : Mem := (zeroMem.write 0xFFFC INS_CPY_IM).write 0xFFFD 0x05

/-- `BCC $0042` at the reset vector. -/
def bccMem : Mem :=
  ((zeroMem.write 0xFFFC INS_BCC).write 0xFFFD 0x42).write 0xFFFE 0x00

/-- `RTS` at the reset vector. -/
def rtsMem : Mem := zeroMem.write 0xFFFC INS_RTS

/-- `CLC` at the reset vector. -/
def clcMem : Mem := zeroMem.write 0xFFFC INS_CLC

/-- Whether a round of the loop used a raw index outside the buffer. -/
def Step.isUndefined : Step → Bool
  | .undefined => true
  | _ => false

/-! ## Theorems -/

/-! ### Arithmetic and memory lemmas -/

theorem and128 (n : Nat) : (n &&& 128 > 0) ↔ n.testBit 7 = true := by
  have h := Nat.and_two_pow n 7
  norm_num at h
  rw [h]
  cases n.testBit 7 <;> simp

theorem flag_eq_one (p : Prop) [Decidable p] : flag p = 1 ↔ p := by
  unfold flag; split_ifs <;> simp [*]

theorem wrap32_wrap32_sub (i k : Int) : wrap32 ((wrap32 i : Int) - k) = wrap32 (i - k) := by
  unfold wrap32; omega

theorem shl8_or (hi lo : Nat) (h : lo < 256) : (hi <<< 8) ||| lo = 256 * hi + lo := by
  rw [Nat.shiftLeft_eq, Nat.mul_comm]
  exact (Nat.mul_add_lt_is_or (show lo < 2 ^ 8 by omega) hi).symm

theorem word_split (val : Nat) (h : val < 65536) :
    ((((val >>> 8) % 256) <<< 8) ||| (val &&& 0xFF)) % 65536 = val := by
  have h1 : val &&& 0xFF = val % 256 := Nat.and_pow_two_sub_one_eq_mod val 8
  rw [h1, shl8_or _ _ (Nat.mod_lt _ (by decide)), Nat.shiftRight_eq_div_pow]
  norm_num
  omega

theorem InitialiseLoop_data (n : Nat) (m : Mem) (a : Fin MAX_MEM) :
    (Mem.InitialiseLoop n m).data a = if a.val < n then 0 else m.data a := by
  induction n with
  | zero => simp [Mem.InitialiseLoop]
  | succ k ih =>
    simp only [Mem.InitialiseLoop, Mem.store, ih]
    split_ifs <;> first | rfl | omega

theorem Initialise_eq (m : Mem) : m.Initialise = zeroMem := by
  have h : m.Initialise.data = fun _ => 0 :=
    funext fun a => by
      show (Mem.InitialiseLoop MAX_MEM m).data a = 0
      rw [InitialiseLoop_data, if_pos a.isLt]
  cases hm : m.Initialise with
  | mk d => rw [hm] at h; simp at h; rw [h]; rfl

theorem read_lt (m : Mem) (hm : m.WF) (a : Nat) : m.read a < 256 := by
  unfold Mem.read
  split_ifs with h
  · exact hm _
  · exact hm _

theorem read_store (m : Mem) (i v a : Nat) (ha : a < MAX_MEM) :
    (m.store i v).read a = if a = i then v else m.read a := by
  have h : ¬ a ≥ MAX_MEM := by omega
  simp only [Mem.read, Mem.store, h, dif_neg, not_false_eq_true]

theorem rawGet_of_lt (m : Mem) (i : Nat) (h : i < MAX_MEM) : m.rawGet i = some (m.read i) := by
  have h1 : ¬ i ≥ MAX_MEM := by omega
  simp only [Mem.rawGet, Mem.read, h, h1, dif_pos, dif_neg, not_false_eq_true]

theorem zeroMem_WF : zeroMem.WF := fun _ => by simp [zeroMem]

theorem store_WF (m : Mem) (hm : m.WF) (i v : Nat) (hv : v < 256) : (m.store i v).WF := by
  intro a
  simp only [Mem.store]
  split_ifs
  · exact hv
  · exact hm a

theorem write_WF (m : Mem) (hm : m.WF) (i v : Nat) (hv : v < 256) : (m.write i v).WF := by
  unfold Mem.write
  split_ifs <;> exact store_WF m hm _ v hv

/-! ### One round of the loop, opcode by opcode -/

theorem step_LDA_IM (c : CPU) (cycles : Nat) (memory : Mem)
    (hop : memory.read c.PC = INS_LDA_IM) :
    c.ExecuteStep cycles memory =
      .next { c with PC := ((c.PC + 1) % 65536 + 1) % 65536,
                     A := memory.read ((c.PC + 1) % 65536),
                     Z := flag (memory.read ((c.PC + 1) % 65536) = 0),
                     N := flag ((memory.read ((c.PC + 1) % 65536) &&& 128) > 0) }
        memory (wrap32 ((wrap32 ((cycles : Int) - 1) : Int) - 1)) := by
  simp only [CPU.ExecuteStep, CPU.FetchU8, hop, if_true]
  rfl

theorem step_LDA_ZP (c : CPU) (cycles : Nat) (memory : Mem)
    (hop : memory.read c.PC = INS_LDA_ZP) :
    c.ExecuteStep cycles memory =
      .next { c with PC := ((c.PC + 1) % 65536 + 1) % 65536,
                     A := memory.read (memory.read ((c.PC + 1) % 65536)),
                     Z := flag (memory.read (memory.read ((c.PC + 1) % 65536)) = 0),
                     N := flag ((memory.read (memory.read ((c.PC + 1) % 65536)) &&& 128) > 0) }
        memory (wrap32 ((wrap32 ((wrap32 ((cycles : Int) - 1) : Int) - 1) : Int) - 1)) := by
  simp only [CPU.ExecuteStep, CPU.FetchU8, CPU.ReadU8, hop]
  rfl

theorem step_LDA_ZPX (c : CPU) (cycles : Nat) (memory : Mem)
    (hop : memory.read c.PC = INS_LDA_ZPX) :
    c.ExecuteStep cycles memory =
      .next { c with PC := ((c.PC + 1) % 65536 + 1) % 65536,
                     A := memory.read ((memory.read ((c.PC + 1) % 65536) + c.X) % 256),
                     Z := flag (memory.read ((memory.read ((c.PC + 1) % 65536) + c.X) % 256) = 0),
                     N := flag ((memory.read ((memory.read ((c.PC + 1) % 65536) + c.X) % 256)
                            &&& 128) > 0) }
        memory
        (wrap32 ((wrap32 ((wrap32 ((wrap32 ((cycles : Int) - 1) : Int) - 1) : Int) - 1) : Int) - 1)) := by
  simp only [CPU.ExecuteStep, CPU.FetchU8, CPU.ReadU8, hop]
  rfl

theorem step_CMP_IM (c : CPU) (cycles : Nat) (memory : Mem)
    (hop : memory.read c.PC = INS_CMP_IM) :
    c.ExecuteStep cycles memory =
      .next { c with PC := ((c.PC + 1) % 65536 + 1) % 65536,
                     Z := flag (wrap8 ((c.A : Int) - memory.read ((c.PC + 1) % 65536)) = 0),
                     C := flag (memory.read ((c.PC + 1) % 65536) ≤ c.A),
                     N := flag ((wrap8 ((c.A : Int) - memory.read ((c.PC + 1) % 65536))
                            &&& 128) > 0) }
        memory (wrap32 ((wrap32 ((cycles : Int) - 1) : Int) - 1)) := by
  simp only [CPU.ExecuteStep, CPU.FetchU8, hop]
  rfl

/-! ### C1: the LDA flag law -/

/-- C1: in a memory of bytes, one round of the loop at an LDA opcode (immediate,
zero-page or zero-page-X) goes on with the memory unchanged, with `A` equal to the
loaded byte `v` (the operand itself, the byte read at the operand, or the byte read at
`(operand + X) mod 256`; the operand and `v` are 8-bit values), `Z = 1` exactly when
`v = 0` and `N = 1` exactly when bit 7 of `v` is set. -/
theorem LDA_flag_law (c : CPU) (cycles : Nat) (memory : Mem) (op operand v : Nat)
    (hm : memory.WF)
    (hop : memory.read c.PC = op)
    (hoperand : memory.read ((c.PC + 1) % 65536) = operand)
    (hv : (op = INS_LDA_IM ∧ v = operand) ∨
          (op = INS_LDA_ZP ∧ v = memory.read operand) ∨
          (op = INS_LDA_ZPX ∧ v = memory.read ((operand + c.X) % 256))) :
    ∃ c1 cycles1, c.ExecuteStep cycles memory = .next c1 memory cycles1 ∧
      operand < 256 ∧ v < 256 ∧
      c1.A = v ∧ (c1.Z = 1 ↔ v = 0) ∧ (c1.N = 1 ↔ v.testBit 7 = true) := by
  have hlt : operand < 256 := hoperand ▸ read_lt memory hm _
  rcases hv with ⟨h, rfl⟩ | ⟨h, rfl⟩ | ⟨h, rfl⟩
  · subst h
    refine ⟨_, _, step_LDA_IM c cycles memory hop, hlt, hlt, ?_⟩
    simp [flag_eq_one, and128, hoperand]
  · subst h
    refine ⟨_, _, step_LDA_ZP c cycles memory hop, hlt, read_lt memory hm _, ?_⟩
    simp [flag_eq_one, and128, hoperand]
  · subst h
    refine ⟨_, _, step_LDA_ZPX c cycles memory hop, hlt, read_lt memory hm _, ?_⟩
    simp [flag_eq_one, and128, hoperand]

theorem ldaImMem_WF : ldaImMem.WF :=
  write_WF _ (write_WF _ zeroMem_WF _ _ (by decide)) _ _ (by decide)

/-- C1 at `LDA #$80` from the reset state: `A = 0x80`, `Z` is not set, `N` is set. -/
theorem LDA_flag_law_witness :
    ∃ c1 cycles1, resetCpu.ExecuteStep 2 ldaImMem = .next c1 ldaImMem cycles1 ∧
      0x80 < 256 ∧ 0x80 < 256 ∧
      c1.A = 0x80 ∧ (c1.Z = 1 ↔ 0x80 = 0) ∧ (c1.N = 1 ↔ (0x80 : Nat).testBit 7 = true) :=
  LDA_flag_law resetCpu 2 ldaImMem INS_LDA_IM 0x80 0x80 ldaImMem_WF (by decide) (by decide)
    (Or.inl ⟨rfl, rfl⟩)

/-! ### C2: the CMP law -/

/-- C2: with `A = r` and an immediate operand `v`, both in `0..255`, one round of the
loop at `CMP #v` sets `C = 1` exactly when `v <= r`, `Z = 1` exactly when `v = r`,
`N = 1` exactly when bit 7 of `(r - v) mod 256` is set, and leaves `A` equal to `r`. -/
theorem CMP_law (c : CPU) (cycles : Nat) (memory : Mem) (r v : Nat)
    (hr : r < 256) (hv : v < 256) (hA : c.A = r)
    (hop : memory.read c.PC = INS_CMP_IM)
    (hoperand : memory.read ((c.PC + 1) % 65536) = v) :
    ∃ c1 cycles1, c.ExecuteStep cycles memory = .next c1 memory cycles1 ∧
      (c1.C = 1 ↔ v ≤ r) ∧ (c1.Z = 1 ↔ v = r) ∧
      (c1.N = 1 ↔ (((r : Int) - (v : Int)) % 256).toNat.testBit 7 = true) ∧
      c1.A = r := by
  refine ⟨_, _, step_CMP_IM c cycles memory hop, ?_⟩
  simp only [flag_eq_one, and128, hoperand, hA, wrap8]
  refine ⟨trivial, ?_, trivial, trivial⟩
  omega

/-- C2 at `CMP #$70` with `A = 0x69`. -/
theorem CMP_law_witness :
    ∃ c1 cycles1, ({ resetCpu with A := 0x69 } : CPU).ExecuteStep 2 cmpMem
        = .next c1 cmpMem cycles1 ∧
      (c1.C = 1 ↔ 0x70 ≤ 0x69) ∧ (c1.Z = 1 ↔ 0x70 = 0x69) ∧
      (c1.N = 1 ↔ ((((0x69 : Nat) : Int) - ((0x70 : Nat) : Int)) % 256).toNat.testBit 7 = true) ∧
      c1.A = 0x69 :=
  CMP_law { resetCpu with A := 0x69 } 2 cmpMem 0x69 0x70 (by decide) (by decide) rfl
    (by decide) (by decide)

/-! ### C4: the reset invariant -/

/-- C4: whatever the processor and the memory were, after `Reset` the program counter
is `0xFFFC`, the stack pointer `0x0100`, `A`, `X`, `Y` and the seven flags are zero,
and each of the `MAX_MEM` cells of the buffer is zero. -/
theorem Reset_invariant (c : CPU) (memory : Mem) :
    (c.Reset memory).1.PC = 0xFFFC ∧ (c.Reset memory).1.SP = 0x0100 ∧
    (c.Reset memory).1.A = 0 ∧ (c.Reset memory).1.X = 0 ∧ (c.Reset memory).1.Y = 0 ∧
    (c.Reset memory).1.C = 0 ∧ (c.Reset memory).1.Z = 0 ∧ (c.Reset memory).1.I = 0 ∧
    (c.Reset memory).1.D = 0 ∧ (c.Reset memory).1.B = 0 ∧ (c.Reset memory).1.V = 0 ∧
    (c.Reset memory).1.N = 0 ∧
    MAX_MEM = 65536 ∧ ∀ a : Fin MAX_MEM, (c.Reset memory).2.data a = 0 := by
  refine ⟨rfl, rfl, rfl, rfl, rfl, rfl, rfl, rfl, rfl, rfl, rfl, rfl, rfl, ?_⟩
  intro a
  show (Mem.InitialiseLoop MAX_MEM memory).data a = 0
  rw [InitialiseLoop_data, if_pos a.isLt]

/-! ### C3: JSR followed by RTS -/

theorem step_JSR (c : CPU) (cycles : Nat) (memory : Mem)
    (hop : memory.read c.PC = INS_JSR) (hsp : c.SP + 1 < MAX_MEM) :
    c.ExecuteStep cycles memory =
      .next { c with PC := operandWord memory c.PC, SP := (c.SP + 2) % 65536 }
        ((memory.store c.SP (pushedWord c.PC &&& 0xFF)).store (c.SP + 1)
          ((pushedWord c.PC >>> 8) % 256))
        (wrap32 ((cycles : Int) - 6)) := by
  have h1 : c.SP < MAX_MEM := by omega
  have h2 : wrap32 ((c.SP : Int) + 1) = c.SP + 1 := by
    unfold wrap32; unfold MAX_MEM at hsp; omega
  have h3 : INS_JSR ≠ INS_LDA_IM ∧ INS_JSR ≠ INS_LDA_ZP ∧ INS_JSR ≠ INS_LDA_ZPX := by decide
  simp only [CPU.ExecuteStep, CPU.FetchU8, CPU.FetchU16, hop, h3.1, h3.2.1, h3.2.2, if_false,
    if_true, Mem.WriteU16, Mem.rawSet, h1, h2, hsp, wrap32_wrap32_sub]
  simp only [operandWord, pushedWord, Step.next.injEq, true_and, and_true]
  congr 1; ring

theorem step_RTS (c : CPU) (cycles : Nat) (memory : Mem)
    (hop : memory.read c.PC = INS_RTS) (hlo : 2 ≤ c.SP) (hhi : c.SP ≤ MAX_MEM) :
    c.ExecuteStep cycles memory =
      .next { c with PC := (((memory.read (c.SP - 1) <<< 8) ||| memory.read (c.SP - 2)) % 65536
                              + 1) % 65536,
                     SP := c.SP - 2 }
        memory (wrap32 ((cycles : Int) - 6)) := by
  unfold MAX_MEM at hhi
  have h1 : wrap32 ((c.SP : Int) - 1) = c.SP - 1 := by unfold wrap32; omega
  have h2 : wrap32 ((c.SP : Int) - 2) = c.SP - 2 := by unfold wrap32; omega
  have h3 : wrap16 ((c.SP : Int) - 2) = c.SP - 2 := by unfold wrap16; omega
  have h4 : c.SP - 1 < MAX_MEM := by unfold MAX_MEM; omega
  have h5 : c.SP - 2 < MAX_MEM := by unfold MAX_MEM; omega
  have h6 : INS_RTS ≠ INS_LDA_IM ∧ INS_RTS ≠ INS_LDA_ZP ∧ INS_RTS ≠ INS_LDA_ZPX ∧
      INS_RTS ≠ INS_JSR ∧ INS_RTS ≠ INS_CMP_IM ∧ INS_RTS ≠ INS_CPX_IM ∧
      INS_RTS ≠ INS_CPY_IM := by decide
  simp only [CPU.ExecuteStep, CPU.FetchU8, hop, h6.1, h6.2.1, h6.2.2.1, h6.2.2.2.1,
    h6.2.2.2.2.1, h6.2.2.2.2.2.1, h6.2.2.2.2.2.2, if_false, if_true, Mem.ReadU16,
    h1, h2, h3, rawGet_of_lt _ _ h4, rawGet_of_lt _ _ h5, wrap32_wrap32_sub]
  simp only [Step.next.injEq, true_and, and_true]
  congr 1; ring

theorem pushedWord_lt (pc : Nat) : pushedWord pc < 65536 := by
  unfold pushedWord wrap16; omega

theorem pushedWord_succ (pc : Nat) : (pushedWord pc + 1) % 65536 = (pc + 3) % 65536 := by
  unfold pushedWord wrap16; omega

/-- C3 as stated fails: at `JSR $0042` placed at `P = 0xFFFC`, with `RTS` at `0x0042`
(still there after the push) and `SP = 0x0100`, the two rounds end with `SP = 0x0100`
and `PC = 0xFFFF`, which is `P + 3` and not `P + 1`. -/
theorem JSR_RTS_round_trip_counterexample :
    jsrRtsMem.read resetCpu.PC = INS_JSR ∧ operandWord jsrRtsMem resetCpu.PC = 0x0042 ∧
    resetCpu.SP + 1 < MAX_MEM ∧
    ((resetCpu.ExecuteStep 12 jsrRtsMem).memOf.map fun m => m.read 0x0042) = some INS_RTS ∧
    (resetCpu.ExecuteTwoSteps 12 jsrRtsMem).cpuOf = some { resetCpu with PC := 0xFFFF } ∧
    0xFFFF ≠ resetCpu.PC + 1 ∧ 0xFFFF = resetCpu.PC + 3 := by
  decide

/-- C3, amended: let `PC = P` address a JSR opcode whose operand word is `T`, let
`SP = S` with `S + 2` still a 16-bit value, and let the cell at `T` hold the RTS opcode,
`T` being neither `S` nor `S + 1`.  Then the round for JSR goes on at `PC = T`, the
next round (the RTS) goes on too, and after it `PC = (P + 3) mod 2^16`, the address
just past the three bytes of the JSR, and `SP = S`. -/
theorem JSR_RTS_round_trip (c : CPU) (cycles : Nat) (memory : Mem) (P S T : Nat)
    (hP : c.PC = P) (hS : c.SP = S) (hS2 : S + 2 < 65536)
    (hop : memory.read P = INS_JSR) (hT : operandWord memory P = T)
    (hrts : memory.read T = INS_RTS) (hTS : T ≠ S ∧ T ≠ S + 1) :
    ∃ c1 m1 cycles1 c2 m2 cycles2,
      c.ExecuteStep cycles memory = .next c1 m1 cycles1 ∧ c1.PC = T ∧
      c1.ExecuteStep cycles1 m1 = .next c2 m2 cycles2 ∧
      c2.PC = (P + 3) % 65536 ∧ c2.SP = S := by
  subst hP hS
  have hTlt : T < MAX_MEM := by rw [← hT]; unfold operandWord; exact Nat.mod_lt _ (by decide)
  have hsp : c.SP + 1 < MAX_MEM := by unfold MAX_MEM; omega
  have hjsr := step_JSR c cycles memory hop hsp
  rw [hT] at hjsr
  have hsp2 : (c.SP + 2) % 65536 = c.SP + 2 := Nat.mod_eq_of_lt hS2
  rw [hsp2] at hjsr
  have hR : Mem.read ((memory.store c.SP (pushedWord c.PC &&& 0xFF)).store (c.SP + 1)
      ((pushedWord c.PC >>> 8) % 256)) T = INS_RTS := by
    rw [read_store _ _ _ _ hTlt, if_neg hTS.2, read_store _ _ _ _ hTlt, if_neg hTS.1]
    exact hrts
  have hrtsStep := step_RTS { c with PC := T, SP := c.SP + 2 } (wrap32 ((cycles : Int) - 6))
    ((memory.store c.SP (pushedWord c.PC &&& 0xFF)).store (c.SP + 1)
      ((pushedWord c.PC >>> 8) % 256)) hR (by show 2 ≤ c.SP + 2; omega)
    (by show c.SP + 2 ≤ MAX_MEM; unfold MAX_MEM; omega)
  refine ⟨_, _, _, _, _, _, hjsr, rfl, hrtsStep, ?_, ?_⟩
  · show (((Mem.read _ (c.SP + 2 - 1) <<< 8) ||| Mem.read _ (c.SP + 2 - 2)) % 65536 + 1) % 65536
      = (c.PC + 3) % 65536
    have e1 : c.SP + 2 - 1 = c.SP + 1 := by omega
    have e2 : c.SP + 2 - 2 = c.SP := by omega
    have e3 : c.SP ≠ c.SP + 1 := by omega
    have e4 : c.SP + 1 < MAX_MEM := hsp
    have e5 : c.SP < MAX_MEM := by omega
    rw [e1, e2, read_store _ _ _ _ e4, if_pos rfl, read_store _ _ _ _ e5, if_neg e3,
      read_store _ _ _ _ e5, if_pos rfl]
    rw [word_split _ (pushedWord_lt c.PC), pushedWord_succ]
  · show c.SP + 2 - 2 = c.SP
    omega

/-- C3, amended, at `JSR $0042` placed at `0xFFFC` with `RTS` at `0x0042` and
`SP = 0x0100`. -/
theorem JSR_RTS_round_trip_witness :
    ∃ c1 m1 cycles1 c2 m2 cycles2,
      resetCpu.ExecuteStep 12 jsrRtsMem = .next c1 m1 cycles1 ∧ c1.PC = 0x0042 ∧
      c1.ExecuteStep cycles1 m1 = .next c2 m2 cycles2 ∧
      c2.PC = (0xFFFC + 3) % 65536 ∧ c2.SP = 0x0100 :=
  JSR_RTS_round_trip resetCpu 12 jsrRtsMem 0xFFFC 0x0100 0x0042 rfl rfl (by decide)
    (by decide) (by decide) (by decide) (by decide)

/-! ### C5: an opcode outside the table -/

theorem step_unknown (c : CPU) (cycles : Nat) (memory : Mem)
    (hop : memory.read c.PC ∉ supportedOpcodes) :
    c.ExecuteStep cycles memory =
      .unknown { c with PC := (c.PC + 1) % 65536 } memory (wrap32 ((cycles : Int) - 1)) := by
  simp only [supportedOpcodes, List.mem_cons, List.mem_singleton, not_or, List.not_mem_nil,
    or_false] at hop
  obtain ⟨h1, h2, h3, h4, h5, h6, h7, h8, h9, h10, h11, h12, h13, h14, h15, h16⟩ := hop
  simp only [CPU.ExecuteStep, CPU.FetchU8, h1, h2, h3, h4, h5, h6, h7, h8, h9, h10, h11, h12,
    h13, h14, h15, h16, if_false]

/-- C5 as stated fails: from the reset state with a zero memory (the byte `0x00` at `PC`
is no supported opcode) and budget 1, `Execute` returns 1, not 0, and `PC` is `0xFFFD`,
not `0xFFFC` as before. -/
theorem decode_fault_counterexample :
    zeroMem.read resetCpu.PC ∉ supportedOpcodes ∧
    (CPU.Execute 1 resetCpu 1 zeroMem).retOf = some 1 ∧
    (CPU.Execute 1 resetCpu 1 zeroMem).retOf ≠ some 0 ∧
    (CPU.Execute 1 resetCpu 1 zeroMem).cpuOf = some { resetCpu with PC := 0xFFFD } ∧
    (CPU.Execute 1 resetCpu 1 zeroMem).cpuOf ≠ some resetCpu := by
  decide

/-- C5, amended: when the loop is entered with a remaining counter `cycles > 0` and the
byte at `PC` is not one of the 16 supported opcodes, `Execute` returns at once from the
`default` case.  The value returned is the number of cycles consumed before that
opcode's fetch plus the one cycle of the fetch (so 1 when it is the first opcode), `PC`
has advanced by one (modulo `2^16`), and every other register, every flag, `SP` and the
memory are as they were when the opcode was reached. -/
theorem decode_fault (c : CPU) (memory : Mem) (begcycles cycles fuel : Nat)
    (hpos : 0 < cycles) (hc : cycles < 4294967296) (hb : begcycles < 4294967296)
    (hop : memory.read c.PC ∉ supportedOpcodes) :
    CPU.ExecuteLoop begcycles (fuel + 1) c cycles memory =
      .returned ((wrap32 ((begcycles : Int) - cycles) + 1) % 4294967296) true
        { c with PC := (c.PC + 1) % 65536 } memory ∧
    CPU.Execute (fuel + 1) c cycles memory =
      .returned 1 true { c with PC := (c.PC + 1) % 65536 } memory := by
  have key : ∀ b : Nat, b < 4294967296 →
      CPU.ExecuteLoop b (fuel + 1) c cycles memory =
        .returned ((wrap32 ((b : Int) - cycles) + 1) % 4294967296) true
          { c with PC := (c.PC + 1) % 65536 } memory := by
    intro b hb1
    simp only [CPU.ExecuteLoop, hpos, if_true, step_unknown c cycles memory hop,
      Outcome.returned.injEq, and_true]
    unfold wrap32; omega
  refine ⟨key begcycles hb, ?_⟩
  have h1 : (wrap32 ((cycles : Int) - cycles) + 1) % 4294967296 = 1 := by
    unfold wrap32; omega
  have h2 := key cycles hc
  rw [h1] at h2
  exact h2

/-- C5, amended, at the reset state with a zero memory and budget 1. -/
theorem decode_fault_witness :
    CPU.ExecuteLoop 1 (0 + 1) resetCpu 1 zeroMem =
      .returned ((wrap32 (((1 : Nat) : Int) - (1 : Nat)) + 1) % 4294967296) true
        { resetCpu with PC := (resetCpu.PC + 1) % 65536 } zeroMem ∧
    CPU.Execute (0 + 1) resetCpu 1 zeroMem =
      .returned 1 true { resetCpu with PC := (resetCpu.PC + 1) % 65536 } zeroMem :=
  decode_fault resetCpu zeroMem 1 1 0 (by decide) (by decide) (by decide) (by decide)

/-! ### C6 and C7: the cycle counter wraps -/

theorem step_NOP (c : CPU) (cycles : Nat) (memory : Mem)
    (hop : memory.read c.PC = INS_NOP) :
    c.ExecuteStep cycles memory =
      .next { c with PC := (c.PC + 1) % 65536 } memory (wrap32 ((cycles : Int) - 2)) := by
  have h : INS_NOP ≠ INS_LDA_IM ∧ INS_NOP ≠ INS_LDA_ZP ∧ INS_NOP ≠ INS_LDA_ZPX ∧
      INS_NOP ≠ INS_JSR ∧ INS_NOP ≠ INS_CMP_IM ∧ INS_NOP ≠ INS_CPX_IM ∧
      INS_NOP ≠ INS_CPY_IM ∧ INS_NOP ≠ INS_RTS := by decide
  simp only [CPU.ExecuteStep, CPU.FetchU8, hop, h.1, h.2.1, h.2.2.1, h.2.2.2.1, h.2.2.2.2.1,
    h.2.2.2.2.2.1, h.2.2.2.2.2.2.1, h.2.2.2.2.2.2.2, if_false, if_true, wrap32_wrap32_sub,
    Step.next.injEq, true_and]
  congr 1; ring

/-- C6, the code at the failing input: with four `NOP`s at `0xFFFC..0xFFFF` and budget 1,
the first round leaves the counter at `2^32 - 1` (two cycles consumed, the budget
exhausted), yet the loop goes on: `Execute` runs all four `NOP`s, fetches a fifth opcode
at address 0 and returns 9 from the `default` case, 8 cycles above the budget. -/
theorem budget_overrun_at_four_nops :
    (resetCpu.ExecuteStep 1 fourNopMem).cyclesOf = some 4294967295 ∧
    (CPU.Execute 5 resetCpu 1 fourNopMem).retOf = some 9 ∧
    (CPU.Execute 5 resetCpu 1 fourNopMem).faultOf = some true ∧
    (CPU.Execute 5 resetCpu 1 fourNopMem).cpuOf = some { resetCpu with PC := 1 } := by
  decide

theorem nopMem_read (a : Nat) : nopMem.read a = INS_NOP := by
  unfold Mem.read nopMem; split_ifs <;> rfl

theorem nop_loop_running (begcycles fuel : Nat) :
    ∀ (c : CPU) (cycles : Nat), cycles % 2 = 1 → cycles < 4294967296 →
      CPU.ExecuteLoop begcycles fuel c cycles nopMem = .running := by
  induction fuel with
  | zero =>
    intro c cycles h1 _
    have hpos : cycles > 0 := by omega
    simp only [CPU.ExecuteLoop, hpos, if_true]
  | succ n ih =>
    intro c cycles h1 h2
    have hpos : cycles > 0 := by omega
    simp only [CPU.ExecuteLoop, hpos, if_true, step_NOP c cycles nopMem (nopMem_read _)]
    apply ih
    · unfold wrap32; omega
    · unfold wrap32; omega

/-- C7, the code at the failing input: in a memory whose every cell holds `NOP`, and
with budget 1, the loop of `Execute` is still running after any number of rounds,
whatever the processor state; the counter goes from 1 to `2^32 - 1` and stays odd. -/
theorem Execute_never_returns_on_nops (c : CPU) (fuel : Nat) :
    CPU.Execute fuel c 1 nopMem = .running :=
  nop_loop_running 1 fuel c 1 (by decide) (by decide)

/-! ### C8: the program of `main` -/

theorem ExecuteLoop_add (begcycles k : Nat) :
    ∀ (n : Nat) (c : CPU) (cycles : Nat) (memory : Mem),
      CPU.ExecuteLoop begcycles n c cycles memory ≠ .running →
      CPU.ExecuteLoop begcycles (n + k) c cycles memory =
        CPU.ExecuteLoop begcycles n c cycles memory := by
  intro n
  induction n with
  | zero =>
    intro c cycles memory h
    by_cases hpos : cycles > 0
    · simp [CPU.ExecuteLoop, hpos] at h
    · cases k <;> simp [CPU.ExecuteLoop, hpos]
  | succ n ih =>
    intro c cycles memory h
    have e : n + 1 + k = (n + k) + 1 := by omega
    rw [e]
    by_cases hpos : cycles > 0
    · simp only [CPU.ExecuteLoop, hpos, if_true] at h ⊢
      cases hs : c.ExecuteStep cycles memory with
      | next c1 m1 cy1 =>
        rw [hs] at h
        exact ih c1 cy1 m1 h
      | unknown c1 m1 cy1 => rfl
      | undefined => rfl
    · simp [CPU.ExecuteLoop, hpos]

theorem cpuOf_ne_running (o : Outcome) (c : CPU) (h : o.cpuOf = some c) : o ≠ .running := by
  intro e
  rw [e] at h
  simp [Outcome.cpuOf] at h

/-- The program of `main`, run for six rounds after `Reset`. -/
theorem main_six_rounds (memory : Mem) :
    (CPU.Execute 6 (resetCpu.Reset memory).1 1 (mainProgram (resetCpu.Reset memory).2)).cpuOf =
      some { PC := 0, SP := 0x0100, A := 0x69, X := 0, Y := 0,
             C := 0, Z := 0, I := 0, D := 0, B := 0, V := 0, N := 1 } ∧
    (CPU.Execute 6 (resetCpu.Reset memory).1 1 (mainProgram (resetCpu.Reset memory).2)).retOf =
      some 19 ∧
    (CPU.Execute 6 (resetCpu.Reset memory).1 1 (mainProgram (resetCpu.Reset memory).2)).faultOf =
      some true := by
  simp only [CPU.Reset, Initialise_eq]
  decide

/-- C8 as stated fails: after `Reset` of a zero memory and the writes of `main`, no run
of `Execute` with budget 1 returns in a state with `A = 0x69`, `Z = 0` and `N = 0`. -/
theorem main_scenario_counterexample :
    ¬ ∃ fuel c1,
      (CPU.Execute fuel (resetCpu.Reset zeroMem).1 1
        (mainProgram (resetCpu.Reset zeroMem).2)).cpuOf = some c1 ∧
      c1.A = 0x69 ∧ c1.Z = 0 ∧ c1.N = 0 := by
  rintro ⟨fuel, c1, h, -, -, hN⟩
  have h6 := (main_six_rounds zeroMem).1
  have e1 := ExecuteLoop_add 1 6 fuel _ _ _ (cpuOf_ne_running _ _ h)
  have e2 := ExecuteLoop_add 1 fuel 6 _ _ _ (cpuOf_ne_running _ _ h6)
  unfold CPU.Execute at h h6
  rw [← e1, Nat.add_comm, e2, h6] at h
  simp only [Option.some.injEq] at h
  rw [← h] at hN
  exact absurd hN (by decide)

/-- C8, amended: whatever the processor and the memory were before, after `Reset`, the
writes of `main` (`JSR $0042` at `0xFFFC`, `LDA #$69; NOP; CMP #$70; RTS` at `0x0042`)
and `Execute` with budget 1, the call returns (after six rounds, from the `default`
case at the zero byte at `0xFFFF`, with 19 cycles consumed) and the final state has
`A = 0x69`, `Z = 0` and `N = 1`, the flags being those of `CMP #$70`. -/
theorem main_scenario (c : CPU) (memory : Mem) (k : Nat) :
    ∃ c1, (CPU.Execute (6 + k) (c.Reset memory).1 1
        (mainProgram (c.Reset memory).2)).cpuOf = some c1 ∧
      c1.A = 0x69 ∧ c1.Z = 0 ∧ c1.N = 1 ∧
      (CPU.Execute (6 + k) (c.Reset memory).1 1
        (mainProgram (c.Reset memory).2)).retOf = some 19 ∧
      (CPU.Execute (6 + k) (c.Reset memory).1 1
        (mainProgram (c.Reset memory).2)).faultOf = some true := by
  obtain ⟨h6, hr, hf⟩ := main_six_rounds memory
  have hR : c.Reset memory = resetCpu.Reset memory := rfl
  have e := ExecuteLoop_add 1 k 6 _ _ _ (cpuOf_ne_running _ _ h6)
  unfold CPU.Execute at h6 hr hf ⊢
  rw [hR, e]
  exact ⟨_, h6, rfl, rfl, rfl, hr, hf⟩

/-! ### C9 and C10: CPX and CPY -/

/-- C9, the code at the failing input: with `X = 5`, `CPX #$03` leaves `C = 0` although
the register is not below the operand (`3 <= 5`); the sibling `CMP` sets `C` for
`val <= A`, `CPX` sets it for `val >= X`. -/
theorem CPX_carry_at_X5_operand3 :
    cpxMem.read resetCpu.PC = INS_CPX_IM ∧ cpxMem.read 0xFFFD = 3 ∧
    (({ resetCpu with X := 5 } : CPU).ExecuteStep 2 cpxMem).cpuOf =
      some { resetCpu with PC := 0xFFFE, X := 5, C := 0, Z := 0, N := 0 } ∧
    3 ≤ 5 := by
  decide

/-- C10, the code at the failing input: with `Y = 5` and `X = 0`, `CPY #$05` leaves
`Z = 0` and `N = 1` although the operand equals `Y`; with `X = 5` in place of `X = 0`
and the same `Y` the flags are `Z = 1`, `C = 1`, `N = 0`: they follow `X`. -/
theorem CPY_reads_X_at_Y5_operand5 :
    cpyMem.read resetCpu.PC = INS_CPY_IM ∧ cpyMem.read 0xFFFD = 5 ∧
    (({ resetCpu with Y := 5, X := 0 } : CPU).ExecuteStep 2 cpyMem).cpuOf =
      some { resetCpu with PC := 0xFFFE, Y := 5, X := 0, Z := 0, C := 1, N := 1 } ∧
    (({ resetCpu with Y := 5, X := 5 } : CPU).ExecuteStep 2 cpyMem).cpuOf =
      some { resetCpu with PC := 0xFFFE, Y := 5, X := 5, Z := 1, C := 1, N := 0 } := by
  decide

/-! ### C11: the cost of a branch -/

/-- C11, the code at the failing input: `BCC $0042` at `0xFFFC` run from two states that
differ only in `C`.  With `C = 0` (taken) the round consumes 4 cycles (10 to 6) and
jumps to `0x0042`; with `C = 1` (not taken) the operand is not fetched: the round
consumes 1 cycle (10 to 9) and `PC` is `0xFFFD`, the first operand byte, not `0xFFFF`. -/
theorem BCC_cost_depends_on_carry :
    bccMem.read resetCpu.PC = INS_BCC ∧
    (({ resetCpu with C := 0 } : CPU).ExecuteStep 10 bccMem).cyclesOf = some 6 ∧
    (({ resetCpu with C := 0 } : CPU).ExecuteStep 10 bccMem).cpuOf =
      some { resetCpu with C := 0, PC := 0x0042 } ∧
    (({ resetCpu with C := 1 } : CPU).ExecuteStep 10 bccMem).cyclesOf = some 9 ∧
    (({ resetCpu with C := 1 } : CPU).ExecuteStep 10 bccMem).cpuOf =
      some { resetCpu with C := 1, PC := 0xFFFD } := by
  decide

/-! ### C12: the cycles of LDA -/

/-- C12: one round of the loop at an LDA opcode goes on with the cycle counter lowered,
modulo `2^32`, by exactly 2 for the immediate mode, 3 for zero-page and 4 for
zero-page-X, counted from before the opcode fetch. -/
theorem LDA_cycles (c : CPU) (cycles : Nat) (memory : Mem) (op n : Nat)
    (hop : memory.read c.PC = op)
    (hn : (op = INS_LDA_IM ∧ n = 2) ∨ (op = INS_LDA_ZP ∧ n = 3) ∨
          (op = INS_LDA_ZPX ∧ n = 4)) :
    ∃ c1 m1 cycles1, c.ExecuteStep cycles memory = .next c1 m1 cycles1 ∧
      cycles1 = wrap32 ((cycles : Int) - n) ∧ wrap32 ((cycles : Int) - cycles1) = n := by
  rcases hn with ⟨h, rfl⟩ | ⟨h, rfl⟩ | ⟨h, rfl⟩
  · subst h
    refine ⟨_, _, _, step_LDA_IM c cycles memory hop, ?_, ?_⟩ <;> (unfold wrap32; omega)
  · subst h
    refine ⟨_, _, _, step_LDA_ZP c cycles memory hop, ?_, ?_⟩ <;> (unfold wrap32; omega)
  · subst h
    refine ⟨_, _, _, step_LDA_ZPX c cycles memory hop, ?_, ?_⟩ <;> (unfold wrap32; omega)

/-- C12 at `LDA #$80` from the reset state with 10 cycles left. -/
theorem LDA_cycles_witness :
    ∃ c1 m1 cycles1, resetCpu.ExecuteStep 10 ldaImMem = .next c1 m1 cycles1 ∧
      cycles1 = wrap32 (((10 : Nat) : Int) - (2 : Nat)) ∧
      wrap32 (((10 : Nat) : Int) - cycles1) = 2 :=
  LDA_cycles resetCpu 10 ldaImMem INS_LDA_IM 2 (by decide) (Or.inl ⟨rfl, rfl⟩)

/-! ### C13 and C19: NOP and the flag-clear instructions -/

theorem step_CLC (c : CPU) (cycles : Nat) (memory : Mem)
    (hop : memory.read c.PC = INS_CLC) :
    c.ExecuteStep cycles memory =
      .next { c with PC := (c.PC + 1) % 65536, C := 0 } memory
        (wrap32 ((cycles : Int) - 2)) := by
  simp only [INS_CLC] at hop
  simp only [CPU.ExecuteStep, CPU.FetchU8, hop, INS_LDA_IM, INS_LDA_ZP, INS_LDA_ZPX, INS_JSR,
    INS_RTS, INS_CMP_IM, INS_CPX_IM, INS_CPY_IM, INS_NOP, INS_CLC, INS_CLD, INS_CLI, INS_CLV,
    Nat.reduceEqDiff, if_false, if_true, wrap32_wrap32_sub, Step.next.injEq, true_and]
  congr 1; ring

theorem step_CLD (c : CPU) (cycles : Nat) (memory : Mem)
    (hop : memory.read c.PC = INS_CLD) :
    c.ExecuteStep cycles memory =
      .next { c with PC := (c.PC + 1) % 65536, D := 0 } memory
        (wrap32 ((cycles : Int) - 2)) := by
  simp only [INS_CLD] at hop
  simp only [CPU.ExecuteStep, CPU.FetchU8, hop, INS_LDA_IM, INS_LDA_ZP, INS_LDA_ZPX, INS_JSR,
    INS_RTS, INS_CMP_IM, INS_CPX_IM, INS_CPY_IM, INS_NOP, INS_CLC, INS_CLD, INS_CLI, INS_CLV,
    Nat.reduceEqDiff, if_false, if_true, wrap32_wrap32_sub, Step.next.injEq, true_and]
  congr 1; ring

theorem step_CLI (c : CPU) (cycles : Nat) (memory : Mem)
    (hop : memory.read c.PC = INS_CLI) :
    c.ExecuteStep cycles memory =
      .next { c with PC := (c.PC + 1) % 65536, I := 0 } memory
        (wrap32 ((cycles : Int) - 2)) := by
  simp only [INS_CLI] at hop
  simp only [CPU.ExecuteStep, CPU.FetchU8, hop, INS_LDA_IM, INS_LDA_ZP, INS_LDA_ZPX, INS_JSR,
    INS_RTS, INS_CMP_IM, INS_CPX_IM, INS_CPY_IM, INS_NOP, INS_CLC, INS_CLD, INS_CLI, INS_CLV,
    Nat.reduceEqDiff, if_false, if_true, wrap32_wrap32_sub, Step.next.injEq, true_and]
  congr 1; ring

theorem step_CLV (c : CPU) (cycles : Nat) (memory : Mem)
    (hop : memory.read c.PC = INS_CLV) :
    c.ExecuteStep cycles memory =
      .next { c with PC := (c.PC + 1) % 65536, V := 0 } memory
        (wrap32 ((cycles : Int) - 2)) := by
  simp only [INS_CLV] at hop
  simp only [CPU.ExecuteStep, CPU.FetchU8, hop, INS_LDA_IM, INS_LDA_ZP, INS_LDA_ZPX, INS_JSR,
    INS_RTS, INS_CMP_IM, INS_CPX_IM, INS_CPY_IM, INS_NOP, INS_CLC, INS_CLD, INS_CLI, INS_CLV,
    Nat.reduceEqDiff, if_false, if_true, wrap32_wrap32_sub, Step.next.injEq, true_and]
  congr 1; ring

/-- C13 as stated fails: from the reset state with 10 cycles left, the round for `NOP`
leaves 8 and the round for `CLC` leaves 8: each consumes 2 cycles, not 1. -/
theorem one_cycle_counterexample :
    fourNopMem.read resetCpu.PC = INS_NOP ∧
    (resetCpu.ExecuteStep 10 fourNopMem).cyclesOf = some 8 ∧
    clcMem.read resetCpu.PC = INS_CLC ∧
    (resetCpu.ExecuteStep 10 clcMem).cyclesOf = some 8 ∧
    (10 : Nat) - 8 ≠ 1 := by
  decide

/-- C13, amended: one round of the loop at `NOP`, `CLC`, `CLD`, `CLI` or `CLV` goes on
with the cycle counter lowered, modulo `2^32`, by exactly 2, counted from before the
opcode fetch: one cycle for the fetch and one for the instruction. -/
theorem NOP_CLx_cycles (c : CPU) (cycles : Nat) (memory : Mem)
    (hop : memory.read c.PC = INS_NOP ∨ memory.read c.PC = INS_CLC ∨
           memory.read c.PC = INS_CLD ∨ memory.read c.PC = INS_CLI ∨
           memory.read c.PC = INS_CLV) :
    ∃ c1 m1 cycles1, c.ExecuteStep cycles memory = .next c1 m1 cycles1 ∧
      cycles1 = wrap32 ((cycles : Int) - 2) ∧ wrap32 ((cycles : Int) - cycles1) = 2 := by
  have h2 : wrap32 ((cycles : Int) - (wrap32 ((cycles : Int) - 2) : Nat)) = 2 := by
    unfold wrap32; omega
  rcases hop with h | h | h | h | h
  · exact ⟨_, _, _, step_NOP c cycles memory h, rfl, h2⟩
  · exact ⟨_, _, _, step_CLC c cycles memory h, rfl, h2⟩
  · exact ⟨_, _, _, step_CLD c cycles memory h, rfl, h2⟩
  · exact ⟨_, _, _, step_CLI c cycles memory h, rfl, h2⟩
  · exact ⟨_, _, _, step_CLV c cycles memory h, rfl, h2⟩

/-- C13, amended, at `NOP` from the reset state with 10 cycles left. -/
theorem NOP_CLx_cycles_witness :
    ∃ c1 m1 cycles1, resetCpu.ExecuteStep 10 fourNopMem = .next c1 m1 cycles1 ∧
      cycles1 = wrap32 (((10 : Nat) : Int) - 2) ∧ wrap32 (((10 : Nat) : Int) - cycles1) = 2 :=
  NOP_CLx_cycles resetCpu 10 fourNopMem (Or.inl (by decide))

/-- C19: one round of the loop at `NOP` goes on with the memory unchanged and the
processor unchanged but for `PC`, advanced by one modulo `2^16`; at `CLC`, `CLD`, `CLI`
or `CLV` it goes on with the memory unchanged and the processor unchanged but for `PC`,
advanced by one, and the named flag (`C`, `D`, `I`, `V`), set to 0. -/
theorem NOP_CLx_frame (c c1 : CPU) (cycles : Nat) (memory : Mem) (op : Nat)
    (hop : memory.read c.PC = op)
    (hc : (op = INS_NOP ∧ c1 = { c with PC := (c.PC + 1) % 65536 }) ∨
          (op = INS_CLC ∧ c1 = { c with PC := (c.PC + 1) % 65536, C := 0 }) ∨
          (op = INS_CLD ∧ c1 = { c with PC := (c.PC + 1) % 65536, D := 0 }) ∨
          (op = INS_CLI ∧ c1 = { c with PC := (c.PC + 1) % 65536, I := 0 }) ∨
          (op = INS_CLV ∧ c1 = { c with PC := (c.PC + 1) % 65536, V := 0 })) :
    ∃ cycles1, c.ExecuteStep cycles memory = .next c1 memory cycles1 := by
  rcases hc with ⟨h, rfl⟩ | ⟨h, rfl⟩ | ⟨h, rfl⟩ | ⟨h, rfl⟩ | ⟨h, rfl⟩ <;> subst h
  · exact ⟨_, step_NOP c cycles memory hop⟩
  · exact ⟨_, step_CLC c cycles memory hop⟩
  · exact ⟨_, step_CLD c cycles memory hop⟩
  · exact ⟨_, step_CLI c cycles memory hop⟩
  · exact ⟨_, step_CLV c cycles memory hop⟩

/-- C19 at `CLC` from the reset state with `C = 1`. -/
theorem NOP_CLx_frame_witness :
    ∃ cycles1, ({ resetCpu with C := 1 } : CPU).ExecuteStep 10 clcMem =
      .next { resetCpu with PC := 0xFFFD, C := 0 } clcMem cycles1 :=
  NOP_CLx_frame { resetCpu with C := 1 } { resetCpu with PC := 0xFFFD, C := 0 } 10 clcMem
    INS_CLC (by decide) (Or.inr (Or.inl ⟨rfl, by decide⟩))

/-! ### C14: a write outside the buffer -/

/-- C14 as stated fails: writing the byte 7 at address `65536 = MAX_MEM` through the
write accessor changes cell 0 of a zero memory from 0 to 7. -/
theorem write_out_of_range_counterexample :
    65536 ≥ MAX_MEM ∧ zeroMem.read 0 = 0 ∧ (zeroMem.write 65536 7).read 0 = 7 := by
  decide

/-- C14, amended: a single-byte write through the write accessor at an address
`a >= MAX_MEM` is redirected to cell 0: afterwards cell 0 holds the written byte and
every other cell is unchanged. -/
theorem write_out_of_range (m : Mem) (a v : Nat) (ha : a ≥ MAX_MEM) :
    (m.write a v).data ⟨0, by decide⟩ = v ∧
    ∀ i : Fin MAX_MEM, i.val ≠ 0 → (m.write a v).data i = m.data i := by
  simp only [Mem.write, ha, if_true, Mem.store, true_and]
  intro i hi
  rw [if_neg hi]

/-- C14, amended, at address `65536` of a zero memory. -/
theorem write_out_of_range_witness :
    (zeroMem.write 65536 7).data ⟨0, by decide⟩ = 7 ∧
    ∀ i : Fin MAX_MEM, i.val ≠ 0 → (zeroMem.write 65536 7).data i = zeroMem.data i :=
  write_out_of_range zeroMem 65536 7 (by decide)

/-! ### C15: the raw indices of `WriteU16` and `ReadU16` -/

/-- C15, the code at the failing inputs: with `SP = 0xFFFF` the second store of
`WriteU16` indexes `data[0x10000]`, so the round for `JSR` has no defined result; with
`SP = 0` the first load of `ReadU16` indexes `data[0xFFFFFFFF]` and with `SP = 1` the
second one does, so the round for `RTS` has no defined result either. -/
theorem raw_index_out_of_buffer :
    jsrRtsMem.read resetCpu.PC = INS_JSR ∧
    (zeroMem.WriteU16 6 0xFFFE 0xFFFF).isNone = true ∧
    (({ resetCpu with SP := 0xFFFF } : CPU).ExecuteStep 6 jsrRtsMem).isUndefined = true ∧
    rtsMem.read resetCpu.PC = INS_RTS ∧
    (zeroMem.ReadU16 6 0).isNone = true ∧ (zeroMem.ReadU16 6 1).isNone = true ∧
    (({ resetCpu with SP := 0 } : CPU).ExecuteStep 6 rtsMem).isUndefined = true ∧
    (({ resetCpu with SP := 1 } : CPU).ExecuteStep 6 rtsMem).isUndefined = true := by
  decide

/-! ### C16: a word written and read back -/

theorem shr8_mod (v : Nat) (h : v < 65536) : (v >>> 8) % 256 = v / 256 := by
  rw [Nat.shiftRight_eq_div_pow]
  norm_num
  omega

theorem WriteU16_eq (m : Mem) (cycles val a : Nat) (ha : a + 1 < MAX_MEM) :
    m.WriteU16 cycles val a =
      some ((m.store a (val &&& 0xFF)).store (a + 1) ((val >>> 8) % 256),
        wrap32 ((cycles : Int) - 2)) := by
  have h1 : a < MAX_MEM := by omega
  have h2 : wrap32 ((a : Int) + 1) = a + 1 := by
    unfold wrap32; unfold MAX_MEM at ha; omega
  simp only [Mem.WriteU16, Mem.rawSet, h1, h2, ha, if_true, wrap32_wrap32_sub]
  congr 2; congr 1; ring

theorem ReadU16_eq (m : Mem) (cycles a : Nat) (hlo : 2 ≤ a) (hhi : a ≤ MAX_MEM) :
    m.ReadU16 cycles a =
      some (((m.read (a - 1) <<< 8) ||| m.read (a - 2)) % 65536, wrap32 ((cycles : Int) - 2)) := by
  have h1 : wrap32 ((a : Int) - 1) = a - 1 := by unfold wrap32; unfold MAX_MEM at hhi; omega
  have h2 : wrap32 ((a : Int) - 2) = a - 2 := by unfold wrap32; unfold MAX_MEM at hhi; omega
  have h4 : a - 1 < MAX_MEM := by omega
  have h5 : a - 2 < MAX_MEM := by omega
  simp only [Mem.ReadU16, h1, h2, rawGet_of_lt _ _ h4, rawGet_of_lt _ _ h5]

/-- C16: for an address `a` with `a + 1 < MAX_MEM` and a 16-bit value `v`,
`WriteU16(v, a)` succeeds, stores `v mod 256` at `a` and `v div 256` at `a + 1`, changes
no other cell and lowers the cycle counter by 2 (modulo `2^32`); on the memory it
leaves, `ReadU16` at address `a + 2` yields exactly `v` and lowers the cycle counter
by 2 as well. -/
theorem word_round_trip (m : Mem) (cycles a v : Nat) (ha : a + 1 < MAX_MEM) (hv : v < 65536) :
    ∃ m1 cycles1, m.WriteU16 cycles v a = some (m1, cycles1) ∧
      m1.read a = v % 256 ∧ m1.read (a + 1) = v / 256 ∧
      (∀ i : Fin MAX_MEM, i.val ≠ a → i.val ≠ a + 1 → m1.data i = m.data i) ∧
      cycles1 = wrap32 ((cycles : Int) - 2) ∧
      ∀ cycles2 : Nat, m1.ReadU16 cycles2 (a + 2) = some (v, wrap32 ((cycles2 : Int) - 2)) := by
  have h1 : a < MAX_MEM := by omega
  have hne : a ≠ a + 1 := by omega
  have hlow : v &&& 0xFF = v % 256 := Nat.and_pow_two_sub_one_eq_mod v 8
  have ra : ((m.store a (v &&& 0xFF)).store (a + 1) ((v >>> 8) % 256)).read a = v &&& 0xFF := by
    rw [read_store _ _ _ _ h1, if_neg hne, read_store _ _ _ _ h1, if_pos rfl]
  have rb : ((m.store a (v &&& 0xFF)).store (a + 1) ((v >>> 8) % 256)).read (a + 1)
      = (v >>> 8) % 256 := by
    rw [read_store _ _ _ _ ha, if_pos rfl]
  refine ⟨_, _, WriteU16_eq m cycles v a ha, ?_, ?_, ?_, rfl, ?_⟩
  · rw [ra, hlow]
  · rw [rb, shr8_mod v hv]
  · intro i hi1 hi2
    simp only [Mem.store, if_neg hi1, if_neg hi2]
  · intro cycles2
    rw [ReadU16_eq _ cycles2 (a + 2) (by omega) (by omega)]
    have e1 : a + 2 - 1 = a + 1 := by omega
    have e2 : a + 2 - 2 = a := by omega
    rw [e1, e2, ra, rb, word_split v hv]

/-- C16 at address `0x0100` with the word `0xFFFE`. -/
theorem word_round_trip_witness :
    ∃ m1 cycles1, zeroMem.WriteU16 10 0xFFFE 0x0100 = some (m1, cycles1) ∧
      m1.read 0x0100 = 0xFFFE % 256 ∧ m1.read (0x0100 + 1) = 0xFFFE / 256 ∧
      (∀ i : Fin MAX_MEM, i.val ≠ 0x0100 → i.val ≠ 0x0100 + 1 → m1.data i = zeroMem.data i) ∧
      cycles1 = wrap32 (((10 : Nat) : Int) - 2) ∧
      ∀ cycles2 : Nat,
        m1.ReadU16 cycles2 (0x0100 + 2) = some (0xFFFE, wrap32 ((cycles2 : Int) - 2)) :=
  word_round_trip zeroMem 10 0x0100 0xFFFE (by decide) (by decide)

/-! ### C17: the effect of JSR -/

theorem operandWord_eq (memory : Mem) (hm : memory.WF) (pc : Nat) :
    operandWord memory pc =
      memory.read ((pc + 1) % 65536) + 256 * memory.read ((pc + 2) % 65536) := by
  have e : ((pc + 1) % 65536 + 1) % 65536 = (pc + 2) % 65536 := by omega
  have h1 := read_lt memory hm ((pc + 1) % 65536)
  have h2 := read_lt memory hm ((pc + 2) % 65536)
  unfold operandWord
  rw [e, Nat.lor_comm, shl8_or _ _ h1]
  omega

theorem pushedWord_eq (pc : Nat) : pushedWord pc = (pc + 2) % 65536 := by
  unfold pushedWord wrap16; omega

/-- C17: in a memory of bytes, let `PC = P` address a JSR opcode and `SP = S` with
`S + 1 < MAX_MEM`.  The round for JSR goes on with `PC` equal to the little-endian word
at `P + 1`, `P + 2` (addresses modulo `2^16`), with the word `(P + 2) mod 2^16` stored
low byte at `S` and high byte at `S + 1`, with `SP = (S + 2) mod 2^16`, with `A`, `X`,
`Y`, the seven flags and every other memory cell unchanged, and with the cycle counter
lowered by exactly 6 (modulo `2^32`). -/
theorem JSR_effect (c : CPU) (cycles : Nat) (memory : Mem) (P S : Nat)
    (hm : memory.WF) (hP : c.PC = P) (hS : c.SP = S) (hS1 : S + 1 < MAX_MEM)
    (hop : memory.read P = INS_JSR) :
    ∃ c1 m1 cycles1, c.ExecuteStep cycles memory = .next c1 m1 cycles1 ∧
      c1 = { c with PC := memory.read ((P + 1) % 65536) + 256 * memory.read ((P + 2) % 65536),
                    SP := (S + 2) % 65536 } ∧
      m1.read S = (P + 2) % 65536 % 256 ∧ m1.read (S + 1) = (P + 2) % 65536 / 256 ∧
      (∀ i : Fin MAX_MEM, i.val ≠ S → i.val ≠ S + 1 → m1.data i = memory.data i) ∧
      cycles1 = wrap32 ((cycles : Int) - 6) ∧ wrap32 ((cycles : Int) - cycles1) = 6 := by
  subst hP hS
  have h1 : c.SP < MAX_MEM := by omega
  have hne : c.SP ≠ c.SP + 1 := by omega
  have hlt : (c.PC + 2) % 65536 < 65536 := Nat.mod_lt _ (by decide)
  have hlow : (c.PC + 2) % 65536 &&& 0xFF = (c.PC + 2) % 65536 % 256 :=
    Nat.and_pow_two_sub_one_eq_mod _ 8
  have hstep := step_JSR c cycles memory hop hS1
  rw [operandWord_eq memory hm, pushedWord_eq] at hstep
  refine ⟨_, _, _, hstep, rfl, ?_, ?_, ?_, rfl, ?_⟩
  · rw [read_store _ _ _ _ h1, if_neg hne, read_store _ _ _ _ h1, if_pos rfl, hlow]
  · rw [read_store _ _ _ _ hS1, if_pos rfl, shr8_mod _ hlt]
  · intro i hi1 hi2
    simp only [Mem.store, if_neg hi1, if_neg hi2]
  · unfold wrap32; omega

/-- C17 at `JSR $0042` placed at `0xFFFC` with `SP = 0x0100`. -/
theorem JSR_effect_witness :
    ∃ c1 m1 cycles1, resetCpu.ExecuteStep 12 jsrRtsMem = .next c1 m1 cycles1 ∧
      c1 = { resetCpu with
              PC := jsrRtsMem.read ((0xFFFC + 1) % 65536)
                      + 256 * jsrRtsMem.read ((0xFFFC + 2) % 65536),
              SP := (0x0100 + 2) % 65536 } ∧
      m1.read 0x0100 = (0xFFFC + 2) % 65536 % 256 ∧
      m1.read (0x0100 + 1) = (0xFFFC + 2) % 65536 / 256 ∧
      (∀ i : Fin MAX_MEM, i.val ≠ 0x0100 → i.val ≠ 0x0100 + 1 → m1.data i = jsrRtsMem.data i) ∧
      cycles1 = wrap32 (((12 : Nat) : Int) - 6) ∧ wrap32 (((12 : Nat) : Int) - cycles1) = 6 :=
  JSR_effect resetCpu 12 jsrRtsMem 0xFFFC 0x0100
    (write_WF _ (write_WF _ (write_WF _ (write_WF _ zeroMem_WF _ _ (by decide)) _ _ (by decide))
      _ _ (by decide)) _ _ (by decide))
    rfl rfl (by decide) (by decide)

/-! ### C18: a branch that is taken -/

theorem step_BCC_taken (c : CPU) (cycles : Nat) (memory : Mem)
    (hop : memory.read c.PC = INS_BCC) (hcond : c.C = 0) :
    c.ExecuteStep cycles memory =
      .next { c with PC := operandWord memory c.PC } memory (wrap32 ((cycles : Int) - 4)) := by
  simp only [INS_BCC] at hop
  simp only [CPU.ExecuteStep, CPU.FetchU8, CPU.FetchU16, hop, hcond, INS_LDA_IM, INS_LDA_ZP,
    INS_LDA_ZPX, INS_JSR, INS_RTS, INS_CMP_IM, INS_CPX_IM, INS_CPY_IM, INS_NOP, INS_CLC,
    INS_CLD, INS_CLI, INS_CLV, INS_BCC, INS_BCS, INS_BEQ, Nat.reduceEqDiff, if_false, if_true,
    wrap32_wrap32_sub, operandWord, Step.next.injEq, true_and]
  congr 1; ring

theorem step_BCS_taken (c : CPU) (cycles : Nat) (memory : Mem)
    (hop : memory.read c.PC = INS_BCS) (hcond : c.C = 1) :
    c.ExecuteStep cycles memory =
      .next { c with PC := operandWord memory c.PC } memory (wrap32 ((cycles : Int) - 4)) := by
  simp only [INS_BCS] at hop
  simp only [CPU.ExecuteStep, CPU.FetchU8, CPU.FetchU16, hop, hcond, INS_LDA_IM, INS_LDA_ZP,
    INS_LDA_ZPX, INS_JSR, INS_RTS, INS_CMP_IM, INS_CPX_IM, INS_CPY_IM, INS_NOP, INS_CLC,
    INS_CLD, INS_CLI, INS_CLV, INS_BCC, INS_BCS, INS_BEQ, Nat.reduceEqDiff, if_false, if_true,
    wrap32_wrap32_sub, operandWord, Step.next.injEq, true_and]
  congr 1; ring

theorem step_BEQ_taken (c : CPU) (cycles : Nat) (memory : Mem)
    (hop : memory.read c.PC = INS_BEQ) (hcond : c.Z = 1) :
    c.ExecuteStep cycles memory =
      .next { c with PC := operandWord memory c.PC } memory (wrap32 ((cycles : Int) - 4)) := by
  simp only [INS_BEQ] at hop
  simp only [CPU.ExecuteStep, CPU.FetchU8, CPU.FetchU16, hop, hcond, INS_LDA_IM, INS_LDA_ZP,
    INS_LDA_ZPX, INS_JSR, INS_RTS, INS_CMP_IM, INS_CPX_IM, INS_CPY_IM, INS_NOP, INS_CLC,
    INS_CLD, INS_CLI, INS_CLV, INS_BCC, INS_BCS, INS_BEQ, Nat.reduceEqDiff, if_false, if_true,
    wrap32_wrap32_sub, operandWord, Step.next.injEq, true_and]
  congr 1; ring

/-- C18: in a memory of bytes, one round of the loop at `BCC` with `C = 0`, at `BCS`
with `C = 1` or at `BEQ` with `Z = 1` goes on with `PC` equal to the word
`memory[P + 1] + 256 * memory[P + 2]` (addresses modulo `2^16`, `P` the address of the
opcode), and with every register, every flag, `SP` and the memory unchanged. -/
theorem branch_taken (c : CPU) (cycles : Nat) (memory : Mem) (op : Nat)
    (hm : memory.WF) (hop : memory.read c.PC = op)
    (hcond : (op = INS_BCC ∧ c.C = 0) ∨ (op = INS_BCS ∧ c.C = 1) ∨ (op = INS_BEQ ∧ c.Z = 1)) :
    ∃ cycles1, c.ExecuteStep cycles memory =
      .next { c with PC := memory.read ((c.PC + 1) % 65536)
                            + 256 * memory.read ((c.PC + 2) % 65536) }
        memory cycles1 := by
  rw [← operandWord_eq memory hm]
  rcases hcond with ⟨h, hf⟩ | ⟨h, hf⟩ | ⟨h, hf⟩ <;> subst h
  · exact ⟨_, step_BCC_taken c cycles memory hop hf⟩
  · exact ⟨_, step_BCS_taken c cycles memory hop hf⟩
  · exact ⟨_, step_BEQ_taken c cycles memory hop hf⟩

/-- C18 at `BCC $0042` placed at `0xFFFC`, from the reset state (`C = 0`). -/
theorem branch_taken_witness :
    ∃ cycles1, resetCpu.ExecuteStep 10 bccMem =
      .next { resetCpu with PC := bccMem.read ((resetCpu.PC + 1) % 65536)
                                   + 256 * bccMem.read ((resetCpu.PC + 2) % 65536) }
        bccMem cycles1 :=
  branch_taken resetCpu 10 bccMem INS_BCC
    (write_WF _ (write_WF _ (write_WF _ zeroMem_WF _ _ (by decide)) _ _ (by decide))
      _ _ (by decide))
    (by decide) (Or.inl ⟨rfl, rfl⟩)

/-! ### C20: the value returned at the end of the loop -/

theorem ExecuteLoop_normal_return (begcycles : Nat) :
    ∀ (fuel : Nat) (c : CPU) (cycles : Nat) (memory : Mem),
      (CPU.ExecuteLoop begcycles fuel c cycles memory).faultOf = some false →
      (CPU.ExecuteLoop begcycles fuel c cycles memory).retOf = some (wrap32 begcycles) := by
  intro fuel
  induction fuel with
  | zero =>
    intro c cycles memory h
    by_cases hpos : cycles > 0
    · simp [CPU.ExecuteLoop, hpos, Outcome.faultOf] at h
    · have h0 : cycles = 0 := by omega
      subst h0
      simp [CPU.ExecuteLoop, Outcome.retOf]
  | succ n ih =>
    intro c cycles memory h
    by_cases hpos : cycles > 0
    · simp only [CPU.ExecuteLoop, hpos, if_true] at h ⊢
      cases hs : c.ExecuteStep cycles memory with
      | next c1 m1 cy1 =>
        rw [hs] at h
        exact ih c1 cy1 m1 h
      | unknown c1 m1 cy1 =>
        rw [hs] at h
        simp [Outcome.faultOf] at h
      | undefined =>
        rw [hs] at h
        simp [Outcome.faultOf] at h
    · have h0 : cycles = 0 := by omega
      subst h0
      simp [CPU.ExecuteLoop, Outcome.retOf]

/-- C20: for a 32-bit budget `b`, whenever `Execute` returns from the end of the loop
(not from the `default` case of an unsupported opcode) the value returned is exactly
`b`; and with budget 0 `Execute` returns 0 at once, processor and memory unchanged. -/
theorem Execute_normal_return (fuel : Nat) (c : CPU) (b : Nat) (memory : Mem)
    (hb : b < 4294967296) :
    ((CPU.Execute fuel c b memory).faultOf = some false →
      (CPU.Execute fuel c b memory).retOf = some b) ∧
    CPU.Execute fuel c 0 memory = .returned 0 false c memory := by
  constructor
  · intro h
    have e : wrap32 (b : Int) = b := by unfold wrap32; omega
    have := ExecuteLoop_normal_return b fuel c b memory h
    rw [e] at this
    exact this
  · cases fuel <;> simp [CPU.Execute, CPU.ExecuteLoop, wrap32]

/-- C20 at one `NOP` run with budget 2 from the reset state: the loop ends with the
counter at 0 and `Execute` returns 2. -/
theorem Execute_normal_return_witness :
    (CPU.Execute 1 resetCpu 2 fourNopMem).faultOf = some false ∧
    (CPU.Execute 1 resetCpu 2 fourNopMem).retOf = some 2 ∧
    CPU.Execute 1 resetCpu 0 fourNopMem = .returned 0 false resetCpu fourNopMem :=
  ⟨by decide,
   (Execute_normal_return 1 resetCpu 2 fourNopMem (by decide)).1 (by decide),
   (Execute_normal_return 1 resetCpu 2 fourNopMem (by decide)).2⟩

end Emu6502
